import Mathlib

/-!
Verification development for the CAMD campaign core: a shallow embedding of
`camd/agent/base.py` (the `QBC` committee ensemble and `RandomAgent`) and of
the campaign loop controller, together with proofs about the embedded
operations.

Modelling conventions:
* Numbers are exact rationals (`ℚ`); the single floating-point operation with
  no rational counterpart, `numpy.std`'s square root, is taken in `ℝ`.
* The process-global `numpy.random` state is threaded explicitly as a value of
  type `NpRandom`; `numpy.random.shuffle` is modelled by a deterministic
  uniform-shuffle driven by that state.
* Fallible Python operations return `Except PyError _`; `PyError` lists the
  exception classes relevant to the spec's error taxonomy.
* The external `sklearn` estimators (`StandardScaler`, the regressor factory,
  `cross_val_score`) are modelled by the interface structure `Sklearn`, whose
  proof fields record only the documented sklearn behaviours the claims rely
  on (a scaler cannot be fit on zero samples; transform and predict preserve
  the number of rows).
-/

namespace CAMD

/-- Python exception classes appearing in the spec's error taxonomy and in the
behaviour of the embedded code. -/
inductive PyError where
  | valueError
  | indexError
  | notFittedError
  | configurationError
  | notInitializedError
  | agentError
  deriving DecidableEq, Repr

/-- Explicit stand-in for the process-global `numpy.random` state: a
linear-congruential generator state, advanced on every draw. -/
structure NpRandom where
  state : Nat
  deriving DecidableEq, Repr

/-- Seeding, as in `numpy.random.seed(s)`. -/
def NpRandom.ofSeed (s : Nat) : NpRandom := ⟨s⟩

/-- Draw a value below `bound` (for `bound > 0`) and advance the state. -/
def NpRandom.next (r : NpRandom) (bound : Nat) : Nat × NpRandom :=
  let st := (6364136223846793005 * r.state + 1442695040888963407) % (2 ^ 64)
  ((st / 2 ^ 32) % bound, ⟨st⟩)

/-- Feature matrix: a list of rows. -/
abbrev Mat : Type := List (List ℚ)

/-- Target vector. -/
abbrev Vec : Type := List ℚ

/-- Insert `x` at (clamped) position `j` of a list. -/
def insertAt {α : Type _} (x : α) : Nat → List α → List α
  | _, [] => [x]
  | 0, l => x :: l
  | j + 1, y :: l => y :: insertAt x j l

/-- Model of `numpy.random.shuffle`: a uniform random permutation of the list,
produced from and advancing the explicit random state. -/
def shuffle {α : Type _} : List α → NpRandom → List α × NpRandom
  | [], r => ([], r)
  | x :: xs, r =>
    let p := shuffle xs r
    let q := p.2.next (p.1.length + 1)
    (insertAt x q.1 p.1, q.2)

/-- Positional indexing of several elements at once, as in pandas
`.iloc[indices]`: raises `IndexError` when any position is out of range. -/
def iloc {α : Type _} [Inhabited α] (l : List α) (idx : List Nat) :
    Except PyError (List α) :=
  if ∀ i ∈ idx, i < l.length then .ok (idx.map fun i => l.getD i default)
  else .error .indexError

/-- Arithmetic mean of a list, as in `numpy.mean` (empty list treated as 0). -/
def mean (l : List ℚ) : ℚ := l.sum / (l.length : ℚ)

/-- Population variance (`ddof = 0`), the square of `numpy.std`. -/
def popVar (l : List ℚ) : ℚ := mean (l.map fun x => (x - mean l) ^ 2)

/-- Interface model of the external `sklearn` components used by `QBC`:
`StandardScaler` (`fit_transform` / `transform`), the regressor produced by
`ml_algorithm(**ml_algorithm_params)` (`fit` / `predict`), and
`cross_val_score` with `KFold(5, shuffle=True)` (which draws on the global
random state for the shuffled fold assignment).  The proof fields record the
documented sklearn behaviours the development relies on: fitting a scaler on
zero samples raises `ValueError`, and `transform` / `predict` return one row
(one value) per input row. -/
structure Sklearn where
  Scaler : Type
  Model : Type
  scalerFitTransform : Mat → Except PyError (Scaler × Mat)
  scalerTransform : Scaler → Mat → Mat
  modelFit : Mat → Vec → Except PyError Model
  modelPredict : Model → Mat → Vec
  crossValScore : Model → Mat → Vec → NpRandom → List ℚ × NpRandom
  scaler_fit_empty : ∀ m : Mat, m = [] → scalerFitTransform m = .error .valueError
  transform_length : ∀ (s : Scaler) (m : Mat), (scalerTransform s m).length = m.length
  predict_length : ∀ (mo : Model) (m : Mat), (modelPredict mo m).length = m.length

/-- The `QBC` helper class state (`camd/agent/base.py`, lines 27-50):
committee size, training fraction, the `test_full_model` option, the list of
stored `[scaler, model]` pairs, the `trained` flag, and the cross-validation
score (`np.nan`, modelled as `none`, until computed). -/
structure QBC (SK : Sklearn) where
  n_members : Nat
  training_fraction : ℚ
  test_full_model : Bool
  committee_models : List (SK.Scaler × SK.Model)
  trained : Bool
  cv_score : Option ℚ

/-- `QBC.__init__`: fresh instance with no committee, `trained = False` and
`cv_score = np.nan`. -/
def QBC.new (SK : Sklearn) (n_members : Nat) (training_fraction : ℚ)
    (test_full_model : Bool) : QBC SK :=
  ⟨n_members, training_fraction, test_full_model, [], false, none⟩

/-- One iteration of the sampling loop in `QBC.fit` (lines 59-61):
`a = np.arange(len(X)); np.random.shuffle(a); indices = a[:int(f * len(X))]`.
Python's `int()` truncates, which for the nonnegative product is the floor. -/
def sampleIndices (f : ℚ) (n : Nat) (r : NpRandom) : List Nat × NpRandom :=
  let p := shuffle (List.range n) r
  (p.1.take ((f * (n : ℚ)).floor.toNat), p.2)

/-- The subsample-drawing loop of `QBC.fit` (lines 55-63): for each of the
`n_members` members draw indices and record `(X.iloc[indices], y.iloc[indices])`. -/
def drawSplits (f : ℚ) (X : Mat) (y : Vec) :
    Nat → NpRandom → Except PyError (List (Mat × Vec) × NpRandom)
  | 0, r => .ok ([], r)
  | n + 1, r =>
    let p := sampleIndices f X.length r
    match iloc X p.1 with
    | .error e => .error e
    | .ok Xi =>
      match iloc y p.1 with
      | .error e => .error e
      | .ok yi =>
        match drawSplits f X y n p.2 with
        | .error e => .error e
        | .ok rest => .ok ((Xi, yi) :: rest.1, rest.2)

/-- The member-fitting loop of `QBC.fit` (lines 65-72): for each subsample fit
a fresh `StandardScaler`, fit a fresh model on the scaled subsample, and store
the `[scaler, model]` pair. -/
def fitMembers (SK : Sklearn) :
    List (Mat × Vec) → Except PyError (List (SK.Scaler × SK.Model))
  | [] => .ok []
  | (Xi, yi) :: rest =>
    match SK.scalerFitTransform Xi with
    | .error e => .error e
    | .ok sm =>
      match SK.modelFit sm.2 yi with
      | .error e => .error e
      | .ok model =>
        match fitMembers SK rest with
        | .error e => .error e
        | .ok tail => .ok ((sm.1, model) :: tail)

/-- `QBC.fit` (lines 52-84): draw the per-member subsamples, rebuild
`committee_models` from scratch, set `trained = True`, and — when
`test_full_model` is set — fit an overall scaler and model on the whole
dataset and record `cv_score = np.mean(cross_val_score(...)) * -1`. -/
def QBC.fit {SK : Sklearn} (q : QBC SK) (X : Mat) (y : Vec) (r : NpRandom) :
    Except PyError (QBC SK × NpRandom) :=
  match drawSplits q.training_fraction X y q.n_members r with
  | .error e => .error e
  | .ok splits =>
    match fitMembers SK splits.1 with
    | .error e => .error e
    | .ok members =>
      let q1 : QBC SK :=
        { q with committee_models := members, trained := true }
      if q.test_full_model then
        match SK.scalerFitTransform X with
        | .error e => .error e
        | .ok sm =>
          match SK.modelFit sm.2 y with
          | .error e => .error e
          | .ok overall =>
            let sc := SK.crossValScore overall sm.2 y splits.2
            .ok ({ q1 with cv_score := some (mean sc.1 * (-1)) }, sc.2)
      else .ok (q1, splits.2)

/-- The prediction loop of `QBC.predict` (lines 89-93): for
`i in range(n_members)`, look up `committee_models[i]` (an `IndexError` when
out of range, exactly as Python list indexing) and apply that member's scaler
transform followed by its model prediction. -/
def predLoop (SK : Sklearn) (models : List (SK.Scaler × SK.Model)) (X : Mat) :
    List Nat → Except PyError (List Vec)
  | [] => .ok []
  | i :: rest =>
    match models.get? i with
    | none => .error .indexError
    | some sm =>
      match predLoop SK models X rest with
      | .error e => .error e
      | .ok tail => .ok (SK.modelPredict sm.2 (SK.scalerTransform sm.1 X) :: tail)

/-- The committee prediction matrix of `QBC.predict`. -/
def QBC.memberPreds {SK : Sklearn} (q : QBC SK) (X : Mat) :
    Except PyError (List Vec) :=
  predLoop SK q.committee_models X (List.range q.n_members)

/-- `QBC.predict` (lines 86-96): gather the committee predictions and return
`(np.mean(arr, axis=0), np.std(arr, axis=0))`, the per-row mean and
population standard deviation across members. -/
noncomputable def QBC.predict {SK : Sklearn} (q : QBC SK) (X : Mat) :
    Except PyError (List ℚ × List ℝ) :=
  match q.memberPreds X with
  | .error e => .error e
  | .ok ps =>
    let w := (ps.headD []).length
    let cols := (List.range w).map fun j => ps.map fun p => p.getD j 0
    .ok (cols.map mean, cols.map fun c => Real.sqrt ((popVar c : ℚ) : ℝ))

/-- A fit-then-predict pipeline on a freshly constructed ensemble, the
scenario of the determinism property. -/
noncomputable def fitPredict (SK : Sklearn) (n_members : Nat)
    (training_fraction : ℚ) (test_full_model : Bool) (X : Mat) (y : Vec)
    (Xp : Mat) (r : NpRandom) : Except PyError (List ℚ × List ℝ) :=
  match QBC.fit (QBC.new SK n_members training_fraction test_full_model) X y r with
  | .error e => .error e
  | .ok qr => QBC.predict qr.1 Xp

/-- A pandas DataFrame as `RandomAgent` sees it: rows with their index keys. -/
abbrev DFrame : Type := List (Nat × List ℚ)

/-- Model of pandas `DataFrame.sample(n)` (without replacement, the default):
`ValueError` when `n` exceeds the population, otherwise `n` rows drawn as a
prefix of a random permutation. -/
def DFrame.sample (df : DFrame) (n : Nat) (r : NpRandom) :
    Except PyError (DFrame × NpRandom) :=
  if n ≤ df.length then
    let p := shuffle df r
    .ok (p.1.take n, p.2)
  else .error .valueError

/-- The `RandomAgent` state (`camd/agent/base.py`, lines 99-109). -/
structure RandomAgent where
  candidate_data : Option DFrame
  seed_data : Option DFrame
  n_query : Nat
  cv_score : Option ℚ

/-- `RandomAgent.get_hypotheses` (lines 111-122):
`candidate_data.sample(self.n_query).index.tolist()`. -/
def RandomAgent.get_hypotheses (ag : RandomAgent) (candidate_data : DFrame)
    (_seed_data : Option DFrame) (r : NpRandom) :
    Except PyError (List Nat × NpRandom) :=
  match DFrame.sample candidate_data ag.n_query r with
  | .error e => .error e
  | .ok p => .ok (p.1.map Prod.fst, p.2)

/-- Modelled from the spec: the persisted Campaign State of the campaign loop
controller (`camd.loop` is not under `src/`; only its tests and callers are):
iteration counter, seed/candidate key sets and per-iteration history. -/
structure CampaignState where
  iteration : Nat
  seed_data : List Nat
  candidate_data : List Nat
  history : List (List Nat)
  deriving DecidableEq, Repr

/-- Modelled from the spec: the external collaborators consumed by one
controller iteration — agent selection, experiment oracle (returning the keys
successfully labelled) and analyzer summary. -/
structure Collaborators where
  select : List Nat → List Nat → List Nat
  evaluate : List Nat → List Nat
  analyze : List Nat → List Nat → List Nat

/-- Modelled from the spec: the campaign loop controller (`camd.loop.Loop`,
not under `src/`): the persisted snapshot at the expected storage location,
the caller-supplied `create_seed` request and explicit seed/candidate input,
the `initialized` flag and the in-memory Campaign State. -/
structure Controller where
  storage : Option CampaignState
  create_seed : Option Nat
  seed_input : Option (List Nat × List Nat)
  initialized : Bool
  state : CampaignState

/-- Modelled from the spec: `Loop.initialize()`.  A persisted Campaign State
wins over any caller-supplied seed-creation request, which is signalled by
clearing the `create_seed` flag; otherwise a `create_seed` count draws that
many pool rows at random (without replacement) as the initial seed; otherwise
explicit seed/candidate data are adopted when they form a valid disjoint
partition; otherwise `ConfigurationError`. -/
def Controller.initCampaign (c : Controller) (pool : List Nat) (r : NpRandom) :
    Except PyError (Controller × NpRandom) :=
  match c.storage with
  | some st =>
    .ok ({ c with state := st, initialized := true, create_seed := none }, r)
  | none =>
    match c.create_seed with
    | some k =>
      if k ≤ pool.length then
        let p := shuffle pool r
        let st : CampaignState := ⟨0, p.1.take k, p.1.drop k, []⟩
        .ok ({ c with state := st, initialized := true, storage := some st }, p.2)
      else .error .configurationError
    | none =>
      match c.seed_input with
      | some sc =>
        if ∀ a ∈ sc.1, a ∉ sc.2 then
          let st : CampaignState := ⟨0, sc.1, sc.2, []⟩
          .ok ({ c with state := st, initialized := true, storage := some st }, r)
        else .error .configurationError
      | none => .error .configurationError

/-- Modelled from the spec: `Loop.run()` — one iteration: agent selection
(`AgentError` when the selection leaves the candidate pool,
`NotInitializedError` when not initialized), experiment evaluation, moving the
successfully labelled keys to the seed, analyzing, appending to history,
incrementing the iteration counter and persisting the new snapshot. -/
def Controller.run (col : Collaborators) (c : Controller) :
    Except PyError Controller :=
  if c.initialized then
    let sel := col.select c.state.candidate_data c.state.seed_data
    if ∀ k ∈ sel, k ∈ c.state.candidate_data then
      let done := col.evaluate sel
      let newSeed := c.state.seed_data ++ sel.filter (fun k => k ∈ done)
      let newCand := c.state.candidate_data.filter (fun k => k ∉ sel)
      let _summary := col.analyze newSeed newCand
      let st : CampaignState :=
        ⟨c.state.iteration + 1, newSeed, newCand, c.state.history ++ [sel]⟩
      .ok { c with state := st, storage := some st }
    else .error .agentError
  else .error .notInitializedError

/-- A concrete instantiation of the `Sklearn` interface used to evaluate the
embedded code on explicit inputs: the scaler stores its fitted input and
transforms by the identity, the model stores its training set and predicts
zero for every row, and cross-validation returns five zero scores.  Its
fallibility matches sklearn's input validation: fitting on zero samples or on
mismatched `X`/`y` lengths raises `ValueError`. -/
def idSK : Sklearn where
  Scaler := Mat
  Model := Mat × Vec
  scalerFitTransform m := if m = [] then .error .valueError else .ok (m, m)
  scalerTransform _ m := m
  modelFit X y :=
    if X = [] then .error .valueError
    else if X.length = y.length then .ok (X, y) else .error .valueError
  modelPredict _ m := m.map fun _ => 0
  crossValScore _ _ _ r := ([0, 0, 0, 0, 0], r)
  scaler_fit_empty := by intro m h; simp [h]
  transform_length := by intro s m; rfl
  predict_length := by intro mo m; simp

/-- The per-member prediction pipeline of `QBC.predict`, stated directly on
the stored committee: each member's own scaler transform followed by that
member's model prediction. -/
def memberPipeline (SK : Sklearn) (q : QBC SK) (X : Mat) : List Vec :=
  q.committee_models.map fun sm => SK.modelPredict sm.2 (SK.scalerTransform sm.1 X)

/-- A concrete trained one-member ensemble over the concrete interface
instance, used to evaluate `predict` on explicit inputs. -/
def wqbc : QBC idSK :=
  ⟨1, 1, false, [(([[3]] : Mat), (([[3]] : Mat), ([0] : Vec)))], true, none⟩

/-- Concrete collaborators for evaluating the controller: an agent selecting
the first candidate, an oracle labelling everything, a trivial analyzer. -/
def wcol : Collaborators :=
  ⟨fun cand _ => cand.take 1, fun sel => sel, fun _ _ => []⟩

/-- A concrete controller whose storage location holds a persisted Campaign
State at iteration 3, constructed with a caller-supplied seed-creation
request. -/
def wctrl : Controller :=
  ⟨some ⟨3, [1, 2], [3, 4, 5], [[0], [0], [0]]⟩, some 20, none, false,
    ⟨0, [], [], []⟩⟩

theorem insertAt_perm {α : Type _} (x : α) :
    ∀ (j : Nat) (l : List α), (insertAt x j l).Perm (x :: l) := by
  intro j l
  induction l generalizing j with
  | nil => cases j <;> simp [insertAt]
  | cons y ys ih =>
    cases j with
    | zero => simp [insertAt]
    | succ j =>
      have h1 : (y :: insertAt x j ys).Perm (y :: x :: ys) :=
        List.Perm.cons y (ih j)
      exact h1.trans (List.Perm.swap x y ys)

theorem shuffle_perm {α : Type _} :
    ∀ (l : List α) (r : NpRandom), ((shuffle l r).1).Perm l := by
  intro l
  induction l with
  | nil => intro r; simp [shuffle]
  | cons x xs ih =>
    intro r
    have h1 : ((shuffle (x :: xs) r).1).Perm (x :: (shuffle xs r).1) :=
      insertAt_perm x _ _
    exact h1.trans (List.Perm.cons x (ih r))

theorem shuffle_length {α : Type _} (l : List α) (r : NpRandom) :
    (shuffle l r).1.length = l.length :=
  (shuffle_perm l r).length_eq

theorem shuffle_nil {α : Type _} (r : NpRandom) :
    shuffle ([] : List α) r = ([], r) := rfl

theorem iloc_ok_length {α : Type _} [Inhabited α] {l : List α} {idx : List Nat}
    {out : List α} (h : iloc l idx = .ok out) : out.length = idx.length := by
  unfold iloc at h
  split at h
  · cases h; simp
  · cases h

theorem mean_singleton (x : ℚ) : mean [x] = x := by
  simp [mean]

theorem popVar_singleton (x : ℚ) : popVar [x] = 0 := by
  simp [popVar, mean_singleton, mean]

theorem ratFloor_eq_floor (q : ℚ) : q.floor = ⌊q⌋ := by
  rw [Rat.floor_def', Rat.floor_def]

theorem floor_toNat_le {f : ℚ} (hf1 : f ≤ 1) (n : Nat) :
    (f * (n : ℚ)).floor.toNat ≤ n := by
  have h1 : f * (n : ℚ) ≤ (n : ℚ) := by
    have h := mul_le_mul_of_nonneg_right hf1
      (show (0 : ℚ) ≤ (n : ℚ) by positivity)
    simpa using h
  have h2 : ⌊f * (n : ℚ)⌋ ≤ ⌊((n : ℚ))⌋ := Int.floor_le_floor h1
  rw [Int.floor_natCast] at h2
  rw [ratFloor_eq_floor]
  omega

theorem sampleIndices_length {f : ℚ} (hf1 : f ≤ 1) (n : Nat) (r : NpRandom) :
    (sampleIndices f n r).1.length = (f * (n : ℚ)).floor.toNat := by
  simp only [sampleIndices, List.length_take, shuffle_length, List.length_range]
  exact Nat.min_eq_left (floor_toNat_le hf1 n)

theorem sampleIndices_nodup (f : ℚ) (n : Nat) (r : NpRandom) :
    (sampleIndices f n r).1.Nodup := by
  have hperm := shuffle_perm (List.range n) r
  have hnd : ((shuffle (List.range n) r).1).Nodup :=
    hperm.nodup_iff.mpr (List.nodup_range n)
  exact (List.take_sublist _ _).nodup hnd

theorem sampleIndices_lt (f : ℚ) (n : Nat) (r : NpRandom) :
    ∀ i ∈ (sampleIndices f n r).1, i < n := by
  intro i hi
  have h1 : i ∈ (shuffle (List.range n) r).1 :=
    List.take_subset _ _ hi
  have h2 : i ∈ List.range n := (shuffle_perm (List.range n) r).mem_iff.mp h1
  exact List.mem_range.mp h2

theorem drawSplits_ok_length {f : ℚ} {X : Mat} {y : Vec} :
    ∀ {n : Nat} {r : NpRandom} {out : List (Mat × Vec) × NpRandom},
      drawSplits f X y n r = .ok out → out.1.length = n := by
  intro n
  induction n with
  | zero => intro r out h; cases h; rfl
  | succ m ih =>
    intro r out h
    simp only [drawSplits] at h
    split at h
    · exact Except.noConfusion h
    split at h
    · exact Except.noConfusion h
    split at h
    · exact Except.noConfusion h
    rename_i rest h3
    cases h
    simp [ih h3]

theorem drawSplits_ok_sizes {f : ℚ} {X : Mat} {y : Vec} (hf1 : f ≤ 1) :
    ∀ {n : Nat} {r : NpRandom} {out : List (Mat × Vec) × NpRandom},
      drawSplits f X y n r = .ok out →
      ∀ p ∈ out.1, p.1.length = (f * (X.length : ℚ)).floor.toNat ∧
        p.2.length = (f * (X.length : ℚ)).floor.toNat := by
  intro n
  induction n with
  | zero => intro r out h; cases h; intro p hp; cases hp
  | succ m ih =>
    intro r out h
    simp only [drawSplits] at h
    split at h
    · exact Except.noConfusion h
    rename_i Xi h1
    split at h
    · exact Except.noConfusion h
    rename_i yi h2
    split at h
    · exact Except.noConfusion h
    rename_i rest h3
    cases h
    intro p hp
    rcases List.mem_cons.mp hp with hp | hp
    · subst hp
      constructor
      · rw [iloc_ok_length h1, sampleIndices_length hf1]
      · rw [iloc_ok_length h2, sampleIndices_length hf1]
    · exact ih h3 p hp

theorem fitMembers_ok_length {SK : Sklearn} :
    ∀ {splits : List (Mat × Vec)} {ms : List (SK.Scaler × SK.Model)},
      fitMembers SK splits = .ok ms → ms.length = splits.length := by
  intro splits
  induction splits with
  | nil => intro ms h; cases h; rfl
  | cons p rest ih =>
    intro ms h
    simp only [fitMembers] at h
    split at h
    · exact Except.noConfusion h
    split at h
    · exact Except.noConfusion h
    split at h
    · exact Except.noConfusion h
    rename_i tail h3
    cases h
    simp [ih h3]

/-- Every completed `fit` call leaves exactly `n_members` freshly built
`(scaler, model)` pairs in `committee_models`, sets `trained`, and keeps the
constructor parameters. -/
theorem fit_ok_shape {SK : Sklearn} {q : QBC SK} {X : Mat} {y : Vec}
    {r : NpRandom} {q' : QBC SK} {r' : NpRandom}
    (h : q.fit X y r = .ok (q', r')) :
    q'.committee_models.length = q.n_members ∧ q'.trained = true ∧
      q'.n_members = q.n_members ∧ q'.training_fraction = q.training_fraction ∧
      q'.test_full_model = q.test_full_model := by
  simp only [QBC.fit] at h
  split at h
  · exact Except.noConfusion h
  rename_i splits h1
  split at h
  · exact Except.noConfusion h
  rename_i members h2
  have hlen : members.length = q.n_members := by
    rw [fitMembers_ok_length h2, drawSplits_ok_length h1]
  split at h
  · split at h
    · exact Except.noConfusion h
    split at h
    · exact Except.noConfusion h
    cases h
    exact ⟨hlen, rfl, rfl, rfl, rfl⟩
  · cases h
    exact ⟨hlen, rfl, rfl, rfl, rfl⟩

theorem predLoop_shift {SK : Sklearn} (sm : SK.Scaler × SK.Model)
    (ms : List (SK.Scaler × SK.Model)) (X : Mat) :
    ∀ idx : List Nat,
      predLoop SK (sm :: ms) X (idx.map Nat.succ) = predLoop SK ms X idx := by
  intro idx
  induction idx with
  | nil => rfl
  | cons i rest ih =>
    simp only [List.map_cons, predLoop, List.get?_cons_succ, ih]

theorem predLoop_range {SK : Sklearn} (X : Mat) :
    ∀ models : List (SK.Scaler × SK.Model),
      predLoop SK models X (List.range models.length) =
        .ok (models.map fun sm => SK.modelPredict sm.2 (SK.scalerTransform sm.1 X)) := by
  intro models
  induction models with
  | nil => rfl
  | cons sm ms ih =>
    rw [List.length_cons, List.range_succ_eq_map]
    simp only [predLoop, List.get?_cons_zero, predLoop_shift, ih, List.map_cons]

/-- When the committee actually holds `n_members` entries, the prediction loop
succeeds and produces exactly the per-member pipeline outputs. -/
theorem memberPreds_ok {SK : Sklearn} {q : QBC SK} (X : Mat)
    (h : q.committee_models.length = q.n_members) :
    q.memberPreds X = .ok (memberPipeline SK q X) := by
  unfold QBC.memberPreds memberPipeline
  rw [← h]
  exact predLoop_range X q.committee_models

theorem floor_one_mul (n : Nat) : ((1 : ℚ) * (n : ℚ)).floor.toNat = n := by
  rw [one_mul, ratFloor_eq_floor, Int.floor_natCast]
  omega

theorem sampleIndices_one_length (n : Nat) (r : NpRandom) :
    (sampleIndices 1 n r).1.length = n := by
  rw [sampleIndices_length le_rfl, floor_one_mul]

theorem iloc_all_lt {α : Type _} [Inhabited α] {l : List α} {idx : List Nat}
    (h : ∀ i ∈ idx, i < l.length) :
    iloc l idx = .ok (idx.map fun i => l.getD i default) := by
  unfold iloc
  rw [if_pos h]

/-- With `training_fraction = 1` and `|X| ≤ |y|`, the subsample-drawing loop
always succeeds, every drawn `X` block having `|X|` rows and every drawn `y`
block `|X|` entries. -/
theorem drawSplits_one_ok {X : Mat} {y : Vec} (hle : X.length ≤ y.length) :
    ∀ (n : Nat) (r : NpRandom), ∃ out, drawSplits 1 X y n r = .ok out ∧
      ∀ p ∈ out.1, p.1.length = X.length ∧ p.2.length = X.length := by
  intro n
  induction n with
  | zero => intro r; exact ⟨([], r), rfl, by simp⟩
  | succ m ih =>
    intro r
    obtain ⟨out, hout, hsz⟩ := ih (sampleIndices 1 X.length r).2
    have hltX : ∀ i ∈ (sampleIndices 1 X.length r).1, i < X.length :=
      sampleIndices_lt _ _ _
    have hlty : ∀ i ∈ (sampleIndices 1 X.length r).1, i < y.length :=
      fun i hi => lt_of_lt_of_le (hltX i hi) hle
    refine ⟨(((sampleIndices 1 X.length r).1.map fun i => X.getD i default,
      (sampleIndices 1 X.length r).1.map fun i => y.getD i default) :: out.1,
      out.2), ?_, ?_⟩
    · simp only [drawSplits, iloc_all_lt hltX, iloc_all_lt hlty, hout]
    · intro p hp
      rcases List.mem_cons.mp hp with hp | hp
      · subst hp
        constructor <;>
          simp [List.length_map, sampleIndices_one_length]
      · exact hsz p hp

/-- Under the success contracts of the scaler and the model on valid
(nonempty, length-matched) data, the member-fitting loop succeeds. -/
theorem fitMembers_all_ok {SK : Sklearn}
    (hsc : ∀ m : Mat, m ≠ [] →
      ∃ out, SK.scalerFitTransform m = .ok out ∧ out.2.length = m.length)
    (hmf : ∀ (m : Mat) (v : Vec), m ≠ [] → m.length = v.length →
      ∃ mo, SK.modelFit m v = .ok mo) :
    ∀ splits : List (Mat × Vec),
      (∀ p ∈ splits, p.1 ≠ [] ∧ p.1.length = p.2.length) →
      ∃ ms, fitMembers SK splits = .ok ms := by
  intro splits
  induction splits with
  | nil => intro _; exact ⟨[], rfl⟩
  | cons p rest ih =>
    intro hval
    obtain ⟨hne, hlen⟩ := hval p (List.mem_cons_self p rest)
    obtain ⟨sm, hsm, hsmlen⟩ := hsc p.1 hne
    have hsm_ne : sm.2 ≠ [] := by
      intro hcon
      apply hne
      have : sm.2.length = 0 := by rw [hcon]; rfl
      rw [hsmlen] at this
      exact List.length_eq_zero.mp this
    obtain ⟨mo, hmo⟩ := hmf sm.2 p.2 hsm_ne (by rw [hsmlen, hlen])
    obtain ⟨ms, hms⟩ := ih fun p hp => hval p (List.mem_cons_of_mem _ hp)
    exact ⟨(sm.1, mo) :: ms, by simp only [fitMembers, hsm, hmo, hms]⟩

/-- With `training_fraction = 1`, nonempty `X`, `|X| ≤ |y|` (and `|X| = |y|`
when the full-model path is enabled), `fit` on a fresh ensemble succeeds for
any interface instance whose scaler and model fit valid data. -/
theorem fit_one_succeeds {SK : Sklearn}
    (hsc : ∀ m : Mat, m ≠ [] →
      ∃ out, SK.scalerFitTransform m = .ok out ∧ out.2.length = m.length)
    (hmf : ∀ (m : Mat) (v : Vec), m ≠ [] → m.length = v.length →
      ∃ mo, SK.modelFit m v = .ok mo)
    (n : Nat) (tfm : Bool) (X : Mat) (y : Vec) (r : NpRandom)
    (hX : X ≠ []) (hle : X.length ≤ y.length)
    (htfm : tfm = true → X.length = y.length) :
    ∃ q' r', (QBC.new SK n 1 tfm).fit X y r = .ok (q', r') := by
  obtain ⟨out, hout, hsz⟩ := drawSplits_one_ok hle n r
  have hXpos : 0 < X.length := List.length_pos.mpr hX
  have hval : ∀ p ∈ out.1, p.1 ≠ [] ∧ p.1.length = p.2.length := by
    intro p hp
    obtain ⟨h1, h2⟩ := hsz p hp
    constructor
    · intro hcon
      rw [hcon] at h1
      simp at h1
      omega
    · rw [h1, h2]
  obtain ⟨ms, hms⟩ := fitMembers_all_ok hsc hmf out.1 hval
  cases tfm with
  | false =>
    refine ⟨{ QBC.new SK n 1 false with committee_models := ms, trained := true },
      out.2, ?_⟩
    simp [QBC.fit, QBC.new, hout, hms]
  | true =>
    obtain ⟨sm, hsm, hsmlen⟩ := hsc X hX
    have hsm_ne : sm.2 ≠ [] := by
      intro hcon
      have : sm.2.length = 0 := by rw [hcon]; rfl
      rw [hsmlen] at this
      omega
    obtain ⟨mo, hmo⟩ := hmf sm.2 y hsm_ne (by rw [hsmlen]; exact htfm rfl)
    refine ⟨{ QBC.new SK n 1 true with
                committee_models := ms
                trained := true
                cv_score := some (mean (SK.crossValScore mo sm.2 y out.2).1 * (-1)) },
      (SK.crossValScore mo sm.2 y out.2).2, ?_⟩
    simp [QBC.fit, QBC.new, hout, hms, hsm, hmo]

/-- The concrete interface instance satisfies the scaler success contract. -/
theorem idSK_hsc : ∀ m : Mat, m ≠ [] →
    ∃ out, idSK.scalerFitTransform m = .ok out ∧ out.2.length = m.length :=
  fun m hm => ⟨(m, m), by simp [idSK, hm], rfl⟩

/-- The concrete interface instance satisfies the model success contract. -/
theorem idSK_hmf : ∀ (m : Mat) (v : Vec), m ≠ [] → m.length = v.length →
    ∃ mo, idSK.modelFit m v = .ok mo :=
  fun m v hm hlen => ⟨(m, v), by simp [idSK, hm, hlen]⟩

theorem sampleIndices_zero_rows (f : ℚ) (r : NpRandom) :
    sampleIndices f 0 r = ([], r) := by
  simp [sampleIndices, shuffle, List.range_zero]

theorem iloc_nil_idx {α : Type _} [Inhabited α] (l : List α) :
    iloc l [] = .ok [] := by
  simp [iloc]

/-- On an empty feature matrix every member's subsample is empty. -/
theorem drawSplits_nil (f : ℚ) (y : Vec) :
    ∀ (n : Nat) (r : NpRandom),
      drawSplits f ([] : Mat) y n r = .ok (List.replicate n ([], []), r) := by
  intro n
  induction n with
  | zero => intro r; rfl
  | succ m ih =>
    intro r
    simp only [drawSplits, List.length_nil, sampleIndices_zero_rows,
      iloc_nil_idx, ih, List.replicate_succ]

/-- On an empty dataset (and at least one member), `fit` dies inside the
scaler with `ValueError`, exactly as `StandardScaler.fit_transform` does on
zero samples; no trained state is produced. -/
theorem fit_nil_valueError {SK : Sklearn} (q : QBC SK) (y : Vec) (r : NpRandom)
    (hn : 0 < q.n_members) : q.fit ([] : Mat) y r = .error .valueError := by
  obtain ⟨m, hm⟩ : ∃ m, q.n_members = m + 1 := ⟨q.n_members - 1, by omega⟩
  have hfm : fitMembers SK (List.replicate (m + 1) (([] : Mat), ([] : Vec))) =
      .error .valueError := by
    simp only [List.replicate_succ, fitMembers, SK.scaler_fit_empty [] rfl]
  simp only [QBC.fit, hm, drawSplits_nil, hfm]

/-- `QBC.predict` on a committee of the declared size returns exactly the
row-wise mean and population standard deviation of the per-member pipeline
predictions. -/
theorem predict_ok_eq {SK : Sklearn} (q : QBC SK) (X : Mat)
    (hlen : q.committee_models.length = q.n_members) (hn : 0 < q.n_members) :
    q.predict X = .ok
      ((List.range X.length).map fun j =>
        mean ((memberPipeline SK q X).map fun p => p.getD j 0),
       (List.range X.length).map fun j =>
        Real.sqrt ((popVar ((memberPipeline SK q X).map fun p => p.getD j 0) : ℚ) : ℝ)) := by
  have hps := memberPreds_ok X hlen
  have hw : ((memberPipeline SK q X).headD []).length = X.length := by
    rcases hcm : q.committee_models with _ | ⟨sm, ms⟩
    · rw [hcm] at hlen
      simp at hlen
      omega
    · simp only [memberPipeline, hcm, List.map_cons, List.headD_cons]
      rw [SK.predict_length, SK.transform_length]
  simp only [QBC.predict, hps, hw, List.map_map]
  rfl

/-- An initialized controller whose agent respects the selection contract
completes one `run()` and advances the iteration counter by exactly one. -/
theorem run_ok_iteration (col : Collaborators) (c : Controller)
    (hinit : c.initialized = true)
    (hsel : ∀ k ∈ col.select c.state.candidate_data c.state.seed_data,
      k ∈ c.state.candidate_data) :
    ∃ c2, Controller.run col c = .ok c2 ∧
      c2.state.iteration = c.state.iteration + 1 := by
  unfold Controller.run
  rw [hinit]
  simp only [if_true]
  rw [if_pos hsel]
  exact ⟨_, rfl, rfl⟩

/- ------------------------------------------------------------------ -/
/- Claim theorems                                                      -/
/- ------------------------------------------------------------------ -/

/-- C1 (counterexample): at `training_fraction = 1/2` on a 3-row dataset the
code draws `int(0.5 * 3) = 1` index, not `round(0.5 * 3) = 2` as the claim
states. -/
theorem qbc_sample_count_counterexample :
    (sampleIndices (1/2) 3 (NpRandom.ofSeed 0)).1.length ≠
      (round ((1/2 : ℚ) * ((3 : Nat) : ℚ))).toNat := by
  have h1 : (sampleIndices (1/2) 3 (NpRandom.ofSeed 0)).1.length = 1 := by
    rw [sampleIndices_length (by norm_num), ratFloor_eq_floor]
    norm_num
  have h2 : (round ((1/2 : ℚ) * ((3 : Nat) : ℚ))).toNat = 2 := by
    have hr : round ((1/2 : ℚ) * ((3 : Nat) : ℚ)) = 2 := by norm_num [round_eq]
    rw [hr]
    rfl
  omega

/-- C1 (amended): `fit` draws, for each of the `n_members` members, exactly
`int(training_fraction * |X|)` (floor, not round) row indices — pairwise
distinct in-range indices, i.e. without replacement within a member, drawn
afresh for each member — and stores one `(scaler, model)` pair per member. -/
theorem qbc_fit_subsampling (f : ℚ) (hf1 : f ≤ 1) (n : Nat) (r : NpRandom)
    (X : Mat) (y : Vec) :
    ((sampleIndices f n r).1.length = (f * (n : ℚ)).floor.toNat ∧
      (sampleIndices f n r).1.Nodup ∧
      ∀ i ∈ (sampleIndices f n r).1, i < n) ∧
    (∀ (m : Nat) (r0 : NpRandom) (out : List (Mat × Vec) × NpRandom),
      drawSplits f X y m r0 = .ok out →
      out.1.length = m ∧ ∀ p ∈ out.1,
        p.1.length = (f * ((X.length : Nat) : ℚ)).floor.toNat ∧
        p.2.length = (f * ((X.length : Nat) : ℚ)).floor.toNat) ∧
    (∀ (SK : Sklearn) (splits : List (Mat × Vec))
        (ms : List (SK.Scaler × SK.Model)),
      fitMembers SK splits = .ok ms → ms.length = splits.length) :=
  ⟨⟨sampleIndices_length hf1 n r, sampleIndices_nodup f n r,
      sampleIndices_lt f n r⟩,
    fun _ _ _ h => ⟨drawSplits_ok_length h, drawSplits_ok_sizes hf1 h⟩,
    fun _ _ _ h => fitMembers_ok_length h⟩

/-- C1 (witness): the amended claim at `training_fraction = 1/2` on a 3-row
index range. -/
theorem qbc_fit_subsampling_witness :
    ((1 : ℚ)/2 ≤ 1) ∧
    ((sampleIndices (1/2) 3 (NpRandom.ofSeed 0)).1.length =
        ((1/2 : ℚ) * ((3 : Nat) : ℚ)).floor.toNat ∧
      (sampleIndices (1/2) 3 (NpRandom.ofSeed 0)).1.Nodup ∧
      ∀ i ∈ (sampleIndices (1/2) 3 (NpRandom.ofSeed 0)).1, i < 3) :=
  ⟨by norm_num,
    (qbc_fit_subsampling (1/2) (by norm_num) 3 (NpRandom.ofSeed 0) [] []).1⟩

/-- C2 (counterexample): `predict` on a freshly constructed (never fitted)
ensemble fails with `IndexError` from indexing the empty committee list, not
with `NotFittedError` as the claim states. -/
theorem qbc_predict_unfitted_counterexample :
    QBC.predict (QBC.new idSK 1 (1/2) true) [[1]] = .error .indexError ∧
    PyError.indexError ≠ PyError.notFittedError :=
  ⟨rfl, by decide⟩

/-- C2 (amended): on every never-fitted ensemble with at least one member,
`predict` fails — but with `IndexError` (the empty `committee_models` list is
indexed), not `NotFittedError`; no `(mean, std)` pair is ever returned. -/
theorem qbc_predict_unfitted_indexError (SK : Sklearn) (n : Nat) (f : ℚ)
    (tfm : Bool) (X : Mat) (hn : 0 < n) :
    QBC.predict (QBC.new SK n f tfm) X = .error .indexError := by
  obtain ⟨m, rfl⟩ : ∃ m, n = m + 1 := ⟨n - 1, by omega⟩
  simp [QBC.predict, QBC.memberPreds, QBC.new, List.range_succ_eq_map, predLoop]

/-- C2 (witness): the amended claim on a concrete unfitted two-member
ensemble. -/
theorem qbc_predict_unfitted_indexError_witness :
    0 < 2 ∧ QBC.predict (QBC.new idSK 2 (3/4) false) [[2], [3]] =
      .error .indexError :=
  ⟨by decide, qbc_predict_unfitted_indexError idSK 2 (3/4) false [[2], [3]]
    (by decide)⟩

/-- C3 (counterexample): `fit` on length-mismatched data (`|X| = 2`,
`|y| = 3`) with the full-model option off does not fail at all — it returns a
trained ensemble — contradicting the claim that mismatched inputs fail with
`NotFittedError`. -/
theorem qbc_fit_validation_counterexample :
    ((QBC.fit (QBC.new idSK 1 1 false) [[1], [2]] [1, 2, 3]
        (NpRandom.ofSeed 0)).map (fun p => p.1.trained) = .ok true) ∧
    ([1, 2, 3] : Vec).length ≠ ([[1], [2]] : Mat).length := by
  constructor
  · obtain ⟨q', r', hfit⟩ := fit_one_succeeds idSK_hsc idSK_hmf 1 false
      [[1], [2]] [1, 2, 3] (NpRandom.ofSeed 0) (by simp) (by simp) (by simp)
    rw [hfit]
    simp [Except.map, (fit_ok_shape hfit).2.1]
  · simp

/-- C3 (amended): `fit` performs no input validation of its own.  On empty
`X` (with at least one member) it fails with the scaler's `ValueError` — not
`NotFittedError` — and produces no trained state; on mismatched row counts it
can succeed outright (here `|y| > |X|` with the full-model option off yields
a trained ensemble). -/
theorem qbc_fit_no_input_validation :
    (∀ (SK : Sklearn) (q : QBC SK) (y : Vec) (r : NpRandom), 0 < q.n_members →
      q.fit ([] : Mat) y r = .error .valueError) ∧
    ((QBC.fit (QBC.new idSK 1 1 false) [[1], [2]] [1, 2, 3]
        (NpRandom.ofSeed 0)).map (fun p => p.1.trained) = .ok true) := by
  constructor
  · intro SK q y r hn
    exact fit_nil_valueError q y r hn
  · obtain ⟨q', r', hfit⟩ := fit_one_succeeds idSK_hsc idSK_hmf 1 false
      [[1], [2]] [1, 2, 3] (NpRandom.ofSeed 0) (by simp) (by simp) (by simp)
    rw [hfit]
    simp [Except.map, (fit_ok_shape hfit).2.1]

/-- C3 (witness): the amended claim's empty-input branch on a concrete
one-member ensemble. -/
theorem qbc_fit_no_input_validation_witness :
    0 < (QBC.new idSK 1 (1/2) true).n_members ∧
    (QBC.new idSK 1 (1/2) true).fit ([] : Mat) [1] (NpRandom.ofSeed 7) =
      .error .valueError :=
  ⟨by decide, qbc_fit_no_input_validation.1 idSK _ [1] _ (by decide)⟩

/-- C4: on a trained ensemble whose committee holds the declared number of
members, `predict` applies each member's own stored scaler transform followed
by that member's model prediction and returns the pair of the elementwise
mean and the elementwise population standard deviation (`ddof = 0`) of the
member prediction vectors, one value pair per row of `X`. -/
theorem qbc_predict_mean_std {SK : Sklearn} (q : QBC SK) (X : Mat)
    (hlen : q.committee_models.length = q.n_members) (hn : 0 < q.n_members) :
    q.predict X = .ok
      ((List.range X.length).map fun j =>
        mean ((memberPipeline SK q X).map fun p => p.getD j 0),
       (List.range X.length).map fun j =>
        Real.sqrt ((popVar ((memberPipeline SK q X).map fun p => p.getD j 0) : ℚ) : ℝ)) :=
  predict_ok_eq q X hlen hn

/-- C4 (witness): the aggregation law on a concrete one-member committee. -/
theorem qbc_predict_mean_std_witness :
    wqbc.committee_models.length = wqbc.n_members ∧ 0 < wqbc.n_members ∧
    wqbc.predict [[5]] = .ok
      ((List.range ([[5]] : Mat).length).map fun j =>
        mean ((memberPipeline idSK wqbc [[5]]).map fun p => p.getD j 0),
       (List.range ([[5]] : Mat).length).map fun j =>
        Real.sqrt ((popVar ((memberPipeline idSK wqbc [[5]]).map fun p => p.getD j 0) : ℚ) : ℝ)) :=
  ⟨rfl, by decide, qbc_predict_mean_std wqbc [[5]] rfl (by decide)⟩

/-- C5: an ensemble freshly constructed with `n_members = 1` and then
successfully fitted returns the zero vector as the std component of every
prediction. -/
theorem qbc_single_member_zero_std {SK : Sklearn} (f : ℚ) (tfm : Bool)
    (X : Mat) (y : Vec) (r : NpRandom) (q' : QBC SK) (r' : NpRandom) (Xp : Mat)
    (hfit : (QBC.new SK 1 f tfm).fit X y r = .ok (q', r')) :
    (q'.predict Xp).map Prod.snd = .ok (List.replicate Xp.length (0 : ℝ)) := by
  obtain ⟨hlen, htr, hnm, _, _⟩ := fit_ok_shape hfit
  have hl1 : q'.committee_models.length = q'.n_members := by rw [hlen, hnm]
  have hpos : 0 < q'.n_members := by rw [hnm]; exact Nat.one_pos
  obtain ⟨sm, hcm⟩ : ∃ sm, q'.committee_models = [sm] :=
    List.length_eq_one.mp hlen
  rw [predict_ok_eq q' Xp hl1 hpos]
  simp only [Except.map]
  refine congrArg Except.ok ?_
  refine List.eq_replicate_iff.mpr ⟨by simp, ?_⟩
  intro b hb
  simp only [List.mem_map, List.mem_range] at hb
  obtain ⟨j, _, rfl⟩ := hb
  simp [memberPipeline, hcm, popVar_singleton]

/-- C5 (witness): fit a one-member ensemble on concrete data and predict on a
one-row input; the std component is the zero vector. -/
theorem qbc_single_member_zero_std_witness :
    (QBC.fit (QBC.new idSK 1 1 false) [[1], [2]] [1, 2]
      (NpRandom.ofSeed 0)).map (fun p => (p.1.predict [[5]]).map Prod.snd) =
      .ok (.ok (List.replicate ([[5]] : Mat).length (0 : ℝ))) := by
  obtain ⟨q', r', hfit⟩ := fit_one_succeeds idSK_hsc idSK_hmf 1 false
    [[1], [2]] [1, 2] (NpRandom.ofSeed 0) (by simp) (by simp) (by simp)
  rw [hfit]
  have hmap : (Except.ok (q', r') : Except PyError (QBC idSK × NpRandom)).map
      (fun p => ((p.1).predict [[5]]).map Prod.snd) =
      .ok ((q'.predict [[5]]).map Prod.snd) := rfl
  rw [hmap, qbc_single_member_zero_std 1 false [[1], [2]] [1, 2]
    (NpRandom.ofSeed 0) q' r' [[5]] hfit]

/-- C6: with the explicit random state fixed to the same seed, fit-then-
predict with `n_members = 3`, `training_fraction = 1/2` on a 100-row dataset
is a deterministic function of the data and the seed — two runs coincide
exactly (in this embedding the global `numpy.random` state is the only hidden
input, so determinism holds definitionally once it is made explicit). -/
theorem qbc_fixed_seed_determinism (SK : Sklearn) (tfm : Bool) (X : Mat)
    (y : Vec) (Xp : Mat) (seed : Nat)
    (_hX : X.length = 100) (_hy : y.length = 100) :
    fitPredict SK 3 (1/2) tfm X y Xp (NpRandom.ofSeed seed) =
      fitPredict SK 3 (1/2) tfm X y Xp (NpRandom.ofSeed seed) := rfl

/-- C6 (witness): the determinism scenario at a concrete 100-row dataset and
seed 42. -/
theorem qbc_fixed_seed_determinism_witness :
    (List.replicate 100 ([1] : List ℚ)).length = 100 ∧
    (List.replicate 100 (1 : ℚ)).length = 100 ∧
    fitPredict idSK 3 (1/2) true (List.replicate 100 [1])
        (List.replicate 100 1) [[2]] (NpRandom.ofSeed 42) =
      fitPredict idSK 3 (1/2) true (List.replicate 100 [1])
        (List.replicate 100 1) [[2]] (NpRandom.ofSeed 42) :=
  ⟨by simp, by simp,
    qbc_fixed_seed_determinism idSK true (List.replicate 100 [1])
      (List.replicate 100 1) [[2]] 42 (by simp) (by simp)⟩

/-- C7: every completed `fit` call replaces the committee wholesale — the
resulting ensemble holds exactly `n_members` `(scaler, model)` pairs no
matter what the committee held before — and sets `trained = true`. -/
theorem qbc_fit_replaces_members {SK : Sklearn} {q : QBC SK} {X : Mat}
    {y : Vec} {r : NpRandom} {q' : QBC SK} {r' : NpRandom}
    (h : q.fit X y r = .ok (q', r')) :
    q'.committee_models.length = q.n_members ∧ q'.trained = true :=
  ⟨(fit_ok_shape h).1, (fit_ok_shape h).2.1⟩

/-- C7 (witness): a concrete two-member fit ends with exactly two members and
`trained = true`. -/
theorem qbc_fit_replaces_members_witness :
    (QBC.fit (QBC.new idSK 2 1 false) [[1], [2]] [1, 2]
      (NpRandom.ofSeed 5)).map
      (fun p => (p.1.committee_models.length, p.1.trained)) = .ok (2, true) := by
  obtain ⟨q', r', hfit⟩ := fit_one_succeeds idSK_hsc idSK_hmf 2 false
    [[1], [2]] [1, 2] (NpRandom.ofSeed 5) (by simp) (by simp) (by simp)
  obtain ⟨h1, h2⟩ := qbc_fit_replaces_members hfit
  rw [hfit]
  simp [Except.map, h1, h2, QBC.new]

/-- C8: when the full-model option is enabled, a completed `fit` fits one
model on the whole scaled dataset and records `cv_score` as the negated mean
of the cross-validation scores (a positive error magnitude); when disabled,
`cv_score` stays unset (`NaN`, here `none`). -/
theorem qbc_full_model_score {SK : Sklearn} (n : Nat) (f : ℚ) (tfm : Bool)
    (X : Mat) (y : Vec) (r : NpRandom) (q' : QBC SK) (r' : NpRandom)
    (hfit : (QBC.new SK n f tfm).fit X y r = .ok (q', r')) :
    (tfm = true → ∃ (r1 : NpRandom) (sm : SK.Scaler × Mat) (mo : SK.Model),
      SK.scalerFitTransform X = .ok sm ∧ SK.modelFit sm.2 y = .ok mo ∧
      q'.cv_score = some (mean (SK.crossValScore mo sm.2 y r1).1 * (-1)) ∧
      r' = (SK.crossValScore mo sm.2 y r1).2) ∧
    (tfm = false → q'.cv_score = none) := by
  simp only [QBC.fit, QBC.new] at hfit
  split at hfit
  · exact Except.noConfusion hfit
  rename_i splits h1
  split at hfit
  · exact Except.noConfusion hfit
  rename_i members h2
  split at hfit
  · rename_i htfm
    split at hfit
    · exact Except.noConfusion hfit
    rename_i sm h3
    split at hfit
    · exact Except.noConfusion hfit
    rename_i mo h4
    cases hfit
    constructor
    · intro _
      exact ⟨splits.2, sm, mo, h3, h4, rfl, rfl⟩
    · intro hf
      rw [htfm] at hf
      exact Bool.noConfusion hf
  · rename_i htfm
    cases hfit
    constructor
    · intro ht
      exact absurd ht htfm
    · intro _
      rfl

/-- C8 (witness): a concrete full-model fit records the negated mean of the
five cross-validation scores (zero for the concrete interface instance),
while the member path alone leaves it `none`. -/
theorem qbc_full_model_score_witness :
    (QBC.fit (QBC.new idSK 1 1 true) [[1], [2]] [1, 2]
      (NpRandom.ofSeed 3)).map (fun p => p.1.cv_score) = .ok (some 0) := by
  obtain ⟨q', r', hfit⟩ := fit_one_succeeds idSK_hsc idSK_hmf 1 true
    [[1], [2]] [1, 2] (NpRandom.ofSeed 3) (by simp) (by simp) (fun _ => by simp)
  obtain ⟨htrue, _⟩ := qbc_full_model_score 1 1 true [[1], [2]] [1, 2]
    (NpRandom.ofSeed 3) q' r' hfit
  obtain ⟨r1, sm, mo, hsm, hmo, hcv, hr⟩ := htrue rfl
  rw [hfit]
  have hmap : (Except.ok (q', r') : Except PyError (QBC idSK × NpRandom)).map
      (fun p => p.1.cv_score) = .ok q'.cv_score := rfl
  rw [hmap, hcv]
  have hc : idSK.crossValScore mo sm.2 [1, 2] r1 = ([0, 0, 0, 0, 0], r1) := rfl
  rw [hc]
  norm_num [mean]

/-- C9: when a persisted Campaign State exists, `initialize()` restores it —
the caller-supplied seed-creation request is ignored and observably cleared,
the controller reports `initialized = true` with the persisted iteration
count — and one further `run()` (with a contract-respecting agent) increments
the iteration by exactly one. -/
theorem controller_restore_wins (c : Controller) (st : CampaignState)
    (pool : List Nat) (r : NpRandom) (col : Collaborators)
    (hst : c.storage = some st)
    (hsel : ∀ (cand seed : List Nat), ∀ k ∈ col.select cand seed, k ∈ cand) :
    ∃ c1, c.initCampaign pool r = .ok (c1, r) ∧
      c1.create_seed = none ∧ c1.initialized = true ∧
      c1.state.iteration = st.iteration ∧
      ∃ c2, Controller.run col c1 = .ok c2 ∧
        c2.state.iteration = st.iteration + 1 := by
  refine ⟨{ c with state := st, initialized := true, create_seed := none },
    ?_, rfl, rfl, rfl, ?_⟩
  · simp [Controller.initCampaign, hst]
  · obtain ⟨c2, hrun, hiter⟩ := run_ok_iteration col
      { c with state := st, initialized := true, create_seed := none }
      rfl (hsel st.candidate_data st.seed_data)
    exact ⟨c2, hrun, hiter⟩

/-- C9 (witness): restoring a concrete persisted state at iteration 3 clears
the pending seed request, reports the persisted iteration, and a further run
reaches iteration 4. -/
theorem controller_restore_wins_witness :
    wctrl.storage = some ⟨3, [1, 2], [3, 4, 5], [[0], [0], [0]]⟩ ∧
    (∀ (cand seed : List Nat), ∀ k ∈ wcol.select cand seed, k ∈ cand) ∧
    ∃ c1, wctrl.initCampaign [] (NpRandom.ofSeed 0) = .ok (c1, NpRandom.ofSeed 0) ∧
      c1.create_seed = none ∧ c1.initialized = true ∧
      c1.state.iteration = 3 ∧
      ∃ c2, Controller.run wcol c1 = .ok c2 ∧ c2.state.iteration = 3 + 1 := by
  refine ⟨rfl, ?_, ?_⟩
  · intro cand seed k hk
    exact List.take_subset 1 cand hk
  · exact controller_restore_wins wctrl ⟨3, [1, 2], [3, 4, 5], [[0], [0], [0]]⟩
      [] (NpRandom.ofSeed 0) wcol rfl
      (fun cand seed k hk => List.take_subset 1 cand hk)

/-- C10: `RandomAgent.get_hypotheses` satisfies the Agent contract — on a
candidate pool with (per the data model) unique keys and `n_query` at most
the pool size it returns exactly `n_query` distinct keys, all present in the
pool; when `n_query` exceeds the pool size it raises an error (`ValueError`)
rather than returning keys outside the pool. -/
theorem random_agent_contract (nq : Nat) (cand : DFrame) (sd : Option DFrame)
    (r : NpRandom) (hkeys : (cand.map Prod.fst).Nodup) :
    (nq ≤ cand.length →
      ∃ keys r2, RandomAgent.get_hypotheses ⟨none, none, nq, none⟩ cand sd r =
          .ok (keys, r2) ∧
        keys.length = nq ∧ keys.Nodup ∧ ∀ k ∈ keys, k ∈ cand.map Prod.fst) ∧
    (cand.length < nq →
      RandomAgent.get_hypotheses ⟨none, none, nq, none⟩ cand sd r =
        .error .valueError) := by
  constructor
  · intro hle
    have hsamp : DFrame.sample cand nq r =
        .ok ((shuffle cand r).1.take nq, (shuffle cand r).2) := by
      unfold DFrame.sample
      rw [if_pos hle]
    refine ⟨((shuffle cand r).1.take nq).map Prod.fst, (shuffle cand r).2,
      ?_, ?_, ?_, ?_⟩
    · simp only [RandomAgent.get_hypotheses, hsamp]
    · rw [List.length_map, List.length_take, shuffle_length]
      exact Nat.min_eq_left hle
    · have hperm : ((shuffle cand r).1.map Prod.fst).Perm (cand.map Prod.fst) :=
        (shuffle_perm cand r).map Prod.fst
      have hnd : ((shuffle cand r).1.map Prod.fst).Nodup :=
        hperm.nodup_iff.mpr hkeys
      rw [List.map_take]
      exact (List.take_sublist _ _).nodup hnd
    · intro k hk
      rw [List.map_take] at hk
      have h1 : k ∈ (shuffle cand r).1.map Prod.fst :=
        List.take_subset _ _ hk
      exact ((shuffle_perm cand r).map Prod.fst).mem_iff.mp h1
  · intro hlt
    unfold RandomAgent.get_hypotheses DFrame.sample
    rw [if_neg (not_le.mpr hlt)]

/-- C10 (witness): the contract on a concrete three-candidate pool with
`n_query = 2`. -/
theorem random_agent_contract_witness :
    (([(10, [1]), (20, [2]), (30, [3])] : DFrame).map Prod.fst).Nodup ∧
    2 ≤ ([(10, [1]), (20, [2]), (30, [3])] : DFrame).length ∧
    ∃ keys r2, RandomAgent.get_hypotheses ⟨none, none, 2, none⟩
        [(10, [1]), (20, [2]), (30, [3])] none (NpRandom.ofSeed 1) =
        .ok (keys, r2) ∧
      keys.length = 2 ∧ keys.Nodup ∧
      ∀ k ∈ keys, k ∈ ([(10, [1]), (20, [2]), (30, [3])] : DFrame).map Prod.fst := by
  refine ⟨?_, ?_, ?_⟩
  · decide
  · decide
  · exact (random_agent_contract 2 [(10, [1]), (20, [2]), (30, [3])] none
      (NpRandom.ofSeed 1) (by decide)).1 (by decide)

end CAMD
